import Mathlib

/-!
Verification of the pnpack archive tool (`src/pnpack.mts`).

The repository holds two CLI variants in one source file: a `7zip` variant
(delegating expansion to an external `7z` binary fed a list file) and a
`zip` variant (the canonical one per the spec: `archiver`-based, with a
bounded-concurrency pump).  Both are embedded below.  Asynchronous
JavaScript is modelled by explicit state passing and by small-step traces
over an event-loop model; subprocess interaction is modelled by a
`ProcResult` record standing for the observed exit code, stdout and stderr
of the external command.
-/

set_option autoImplicit false

namespace Pnpack

/-! ## JavaScript string primitives

The source manipulates subprocess output with `split('\n')`, `trim()` and
`replace`; these are modelled character-by-character so that every
definition evaluates by kernel reduction. -/

/-- Auxiliary splitter: `acc` holds the characters of the current field in
reverse. -/
def splitOnCharAux (sep : Char) : List Char → List Char → List String
  | acc, [] => [String.mk acc.reverse]
  | acc, c :: cs =>
      if c = sep then String.mk acc.reverse :: splitOnCharAux sep [] cs
      else splitOnCharAux sep (c :: acc) cs

/-- JavaScript `s.split(sep)` for a one-character separator: the (possibly
empty) fields between separator occurrences, in order; the empty string
splits to one empty field. -/
def splitOnChar (sep : Char) (s : String) : List String :=
  splitOnCharAux sep [] s.data

/-- The line list of a chunk of subprocess output: `chunk.split('\n')`. -/
def splitLines (s : String) : List String :=
  splitOnChar '\n' s

/-- The whitespace characters JavaScript `trim()` strips (the ones that can
occur in subprocess output). -/
def jsWhitespace (c : Char) : Bool :=
  decide (c = ' ') || decide (c = '\t') || decide (c = '\n') || decide (c = '\r') ||
    decide (c = '\x0b') || decide (c = '\x0c')

/-- JavaScript `s.trim()`: remove leading and trailing whitespace. -/
def jsTrim (s : String) : String :=
  String.mk (((s.data.dropWhile jsWhitespace).reverse.dropWhile jsWhitespace).reverse)

/-! ## Subprocess results and `runPnpmCommand` (both variants) -/

/-- Observed outcome of one spawned external command: its exit code and the
full text collected from its output streams. -/
structure ProcResult where
  exitCode : Int
  stdout : String
  stderr : String
deriving Repr, DecidableEq

/-- `runPnpmCommand` of the zip variant (src/src/pnpack.mts lines 199-232):
rejects when the child exits non-zero or wrote anything to stderr
(`if (code !== 0 || errorOutput) reject(...)`), otherwise resolves the
trimmed stdout. -/
def runPnpmCommandZip (r : ProcResult) : Except String String :=
  if r.exitCode ≠ 0 ∨ r.stderr ≠ "" then
    .error ("Command exited with code " ++ toString r.exitCode ++ ". Error: " ++ jsTrim r.stderr)
  else
    .ok (jsTrim r.stdout)

/-- `runPnpmCommand` of the 7zip variant (src/src/pnpack.mts lines 11-33):
rejects only when the child exits non-zero (`if (code !== 0) reject(...)`);
the error stream is not inspected.  Otherwise resolves the trimmed stdout. -/
def runPnpmCommand7z (r : ProcResult) : Except String String :=
  if r.exitCode ≠ 0 then
    .error ("Command exited with code " ++ toString r.exitCode ++ ".")
  else
    .ok (jsTrim r.stdout)

/-- `getRootPath` of the zip variant (lines 234-236): `runPnpmCommand(['root'])`. -/
def getRootPathZip (r : ProcResult) : Except String String :=
  runPnpmCommandZip r

/-! ## The `projectExists` regular-expression test (both variants, identical)

`projectExists` builds `new RegExp('^' + projectName + '@', 'm')` and tests
it against the trimmed list output.  The project name is interpolated into
the pattern unescaped, so its characters are read as regular-expression
syntax.  We model the fragment of JavaScript regex semantics these patterns
can use when the name contains only ordinary characters or `.`: a pattern is
a sequence of atoms, each matching one character (`.` matches any character
except a newline; anything else matches itself literally); with the `m`
flag, `^pat` tests whether some line starts with a match of the atoms. -/

/-- One regular-expression atom of the modelled fragment. -/
inductive RAtom where
  | dot
  | lit (c : Char)
deriving Repr, DecidableEq

/-- Compile a pattern string into atoms the way JavaScript reads the
interpolated project name: `.` becomes the any-character atom, every other
character a literal. -/
def regexAtoms (s : String) : List RAtom :=
  s.data.map (fun c => if c = '.' then RAtom.dot else RAtom.lit c)

/-- Whether a list of atoms matches at the start of the given characters. -/
def atomsMatchAt : List RAtom → List Char → Bool
  | [], _ => true
  | _ :: _, [] => false
  | RAtom.dot :: as, c :: cs => decide (c ≠ '\n') && atomsMatchAt as cs
  | RAtom.lit d :: as, c :: cs => decide (c = d) && atomsMatchAt as cs

/-- `projectExists` (zip variant lines 332-336, 7zip variant lines 109-113):
`new RegExp('^' + projectName + '@', 'm').test(output)` — true iff some line
of the output starts with a match of the interpolated pattern. -/
def projectExistsCheck (projectName output : String) : Bool :=
  (splitLines output).any (fun line => atomsMatchAt (regexAtoms (projectName ++ "@")) line.data)

/-- Literal token-at-line-start test the specification describes: the line
begins with the exact characters of `tok`. -/
def lineHasLitToken (tok line : String) : Bool :=
  tok.data.isPrefixOf line.data

/-- The characters JavaScript regular expressions treat specially; a project
name avoiding all of them is matched purely literally. -/
def regexMetaChars : List Char :=
  ['.', '*', '+', '?', '(', ')', '[', ']', '{', '}', '^', '$', '|', '\\']

/-- A string free of regular-expression metacharacters. -/
def noRegexMeta (s : String) : Bool :=
  s.data.all (fun c => decide (c ∉ regexMetaChars))

/-! ## Dependency-listing parsing -/

/-- The `child.stdout.on('data', ...)` loop of the zip variant's
`createArchive` (lines 297-308): a `firstLine` flag starts `true`; the first
line only clears the flag, every later line is trimmed and pushed onto
`allPaths` — no emptiness filter.  We model delivery of the whole stdout as
one chunk, so the lines are the newline-split of the full output. -/
def zipLsLoop : Bool → List String → List String → List String
  | _, acc, [] => acc
  | true, acc, _ :: rest => zipLsLoop false acc rest
  | false, acc, line :: rest => zipLsLoop false (acc ++ [jsTrim line]) rest

/-- The `allPaths` list the zip variant accumulates from the raw
`pnpm ls --parseable` stdout. -/
def zipAllPaths (raw : String) : List String :=
  zipLsLoop true [] (splitLines raw)

/-- The zip variant's dependency-listing step as a whole (lines 293-329):
the `pnpm ls` child is spawned directly — not through `runPnpmCommand` —
and its exit code and stderr are consulted nowhere; the `end` handler of
stdout simply consumes whatever `allPaths` holds.  The step therefore never
fails, whatever the process outcome. -/
def lsChildZip (r : ProcResult) : Except String (List String) :=
  .ok (zipAllPaths r.stdout)

/-- The `uniqueLines` set of the 7zip variant's `createLSFile`
(lines 45-52): every line of every chunk is inserted into a `Set`, which
keeps first-insertion order and discards repeats.  Modelled over the list
of all delivered lines. -/
def uniqueLines (lines : List String) : List String :=
  lines.foldl (fun acc l => if l ∈ acc then acc else acc ++ [l]) []

/-! ## `relativeOf` and the entry mapper (`addToArchive`, zip variant) -/

/-- JavaScript `s.replace(pat, '')` with a string pattern: remove the first
(leftmost) occurrence of `pat`, leaving `s` unchanged when `pat` does not
occur; the empty pattern matches at position 0 and removes nothing. -/
def removeFirstOcc (pat : List Char) : List Char → List Char
  | [] => if pat.isPrefixOf ([] : List Char) then [] else []
  | c :: cs => if pat.isPrefixOf (c :: cs) then (c :: cs).drop pat.length else c :: removeFirstOcc pat cs

/-- The zip variant's relative-name computation (line 253):
`absolutePath.replace(rootPath, '').substring(1)` — drop the first
occurrence of the root path, then drop one leading character. -/
def relativeOf (rootPath absolutePath : String) : String :=
  String.mk ((removeFirstOcc rootPath.data absolutePath.data).drop 1)

/-- Whether a path string begins with the path separator. -/
def leadsWithSep (s : String) : Bool :=
  match s.data with
  | '/' :: _ => true
  | _ => false

/-- Whether a path string contains a parent-directory traversal segment. -/
def hasDotDotSegment (s : String) : Bool :=
  (splitOnChar '/' s).contains ".."

/-- Node's `path.join` restricted to the shapes `addToArchive` feeds it: a
non-empty normalized base joined with a child name. -/
def pathJoin (a b : String) : String :=
  if a = "" then b else a ++ "/" ++ b

/-- What `stat`/`access`/`readdir` report for one path: missing, a regular
file, a directory with its immediate child names, or some other node kind
(neither `isFile()` nor `isDirectory()`). -/
inductive FSStat where
  | absent
  | file
  | dir (children : List String)
  | other
deriving Repr, DecidableEq

/-- One archive entry: source path and archive-relative name, as passed to
`archive.file(path, { name })`. -/
structure Entry where
  src : String
  name : String
deriving Repr, DecidableEq

/-- `addToArchive` (zip variant, lines 238-270), with the `await
getRootPath()` on line 252 made explicit: `rootSeq n` is the stdout the
`n`-th `pnpm root` subprocess of the run resolves to, and the returned
counter records how many such subprocesses have been spawned after the
call.  If the `access` check fails the path is skipped with a warning and
no root query happens; otherwise the root is queried anew, a file yields
one entry under `relativeOf`, a directory one entry per `readdir` child
(joined, not recursed into), and any other node kind yields nothing. -/
def addToArchiveRun (fs : String → FSStat) (rootSeq : Nat → String) (n : Nat)
    (absolutePath : String) : List Entry × List String × Nat :=
  match fs absolutePath with
  | FSStat.absent =>
      ([], ["Path \"" ++ absolutePath ++ "\" does not exist. Skipping..."], n)
  | FSStat.file =>
      ([⟨absolutePath, relativeOf (rootSeq n) absolutePath⟩], [], n + 1)
  | FSStat.dir children =>
      (children.map (fun item =>
        ⟨pathJoin absolutePath item, pathJoin (relativeOf (rootSeq n) absolutePath) item⟩),
       [], n + 1)
  | FSStat.other =>
      ([], [], n + 1)

/-- The dispatch loop of the zip variant's `createArchive` `end` handler
(lines 311-324) viewed as the sequence of `addToArchive` calls it issues:
every path of `allPaths` is processed, each call threading the count of
`pnpm root` subprocesses spawned so far.  Returns all entries, all
warnings, and the final subprocess count. -/
def pumpAddAll (fs : String → FSStat) (rootSeq : Nat → String) :
    List String → Nat → List Entry × List String × Nat
  | [], n => ([], [], n)
  | p :: ps, n =>
      let r := addToArchiveRun fs rootSeq n p
      let rest := pumpAddAll fs rootSeq ps r.2.2
      (r.1 ++ rest.1, r.2.1 ++ rest.2.1, rest.2.2)

/-! ## Error containment at the pump boundary -/

/-- The wrapper of line 316: `addToArchive(itemPath, ...).catch(error =>
console.error(...))` — a rejection of the add operation is converted into a
resolved promise plus a logged message; a success passes through with no
log. -/
def wrappedAdd (op : String → Except String Unit) (p : String) :
    Except String Unit × List String :=
  match op p with
  | .ok u => (.ok u, [])
  | .error e => (.ok (), ["Error adding to archive: " ++ e])

/-- `await Promise.all(runningPromises)` over the wrapped per-path
promises: rejects as soon as any constituent promise rejects, otherwise
resolves with every path's logged messages in dispatch order. -/
def pumpOutcome (op : String → Except String Unit) :
    List String → Except String (List (String × List String))
  | [] => .ok []
  | p :: ps =>
      match (wrappedAdd op p).1 with
      | .error e => .error e
      | .ok _ =>
          match pumpOutcome op ps with
          | .error e => .error e
          | .ok rest => .ok ((p, (wrappedAdd op p).2) :: rest)

/-! ## The bounded-concurrency pump (`runningPromises`)

The `end` handler's loop (lines 311-324) keeps a set `runningPromises` of
in-flight add operations.  Per iteration: pending settlements may remove
members at any time; if the set still has `size >= concurrency` members the
loop awaits `Promise.race`, which returns only after at least one more
member settles (the race winner's deletion callback runs before the loop
resumes); then one new operation is dispatched and inserted.  A *schedule*
records, per iteration, how many in-flight operations settled before that
iteration's dispatch; the code admits exactly the schedules in which each
settlement count `d` satisfies `d ≤ k` (no more settle than are in flight)
and `C ≤ k → 1 ≤ d` (when the ceiling check fires, the race forces at
least one settlement). -/

/-- Admissibility of one iteration's settlement count `d` against the
in-flight size `k` and ceiling `C`, as enforced by lines 312-314. -/
def dispatchGuard (C k d : Nat) : Bool :=
  decide (d ≤ k) && (!(decide (C ≤ k)) || decide (1 ≤ d))

/-- Whether a whole schedule is admissible for the loop starting with `k`
operations in flight. -/
def validSched (C : Nat) : Nat → List Nat → Bool
  | _, [] => true
  | k, d :: ds => dispatchGuard C k d && validSched C (k - d + 1) ds

/-- Every size the in-flight set takes through the dispatch loop: before
each iteration's settlements, after them (just before the dispatch), and
the final size when the path list is exhausted.  The drain phase that
follows (`Promise.all`) only removes members, so these are all the sizes of
the whole run up to its maximum. -/
def pumpCounts (C : Nat) : Nat → List Nat → List Nat
  | k, [] => [k]
  | k, d :: ds => k :: (k - d) :: pumpCounts C (k - d + 1) ds

/-- The in-flight sizes observed at the dispatch points only (right after
the optional wait, just before `runningPromises.add`). -/
def preDispatchCounts (C : Nat) : Nat → List Nat → List Nat
  | _, [] => []
  | k, d :: ds => (k - d) :: preDispatchCounts C (k - d + 1) ds

/-- The in-flight sizes at the start of each loop iteration, before any of
that iteration's settlements: an upper bound for the size the
`runningPromises.size >= concurrency` check can observe, since settlements
only shrink the set. -/
def checkCounts (C : Nat) : Nat → List Nat → List Nat
  | _, [] => []
  | k, d :: ds => k :: checkCounts C (k - d + 1) ds

/-- The run in which no operation ever settles before the loop finishes
dispatching: `n` dispatches with the ceiling check `size >= concurrency`
never firing.  `true` exactly when every iteration finds the in-flight size
strictly below the ceiling, i.e. no suspension on the ceiling occurs. -/
def noSuspensionRun (C : Nat) : Nat → Nat → Bool
  | _, 0 => true
  | k, n + 1 => decide (k < C) && noSuspensionRun C (k + 1) n

/-! ## The resolution order of `createArchive` (zip variant)

`createArchive` (lines 272-330) is an `async` function whose body contains
no `await`: it creates the output stream and archiver, builds
`archivePromise`, spawns the `pnpm ls` child, registers the `data` and
`end` handlers, and returns — at which point the promise it hands its
caller resolves.  All archive work (the dispatch loop, `Promise.all`,
`archive.finalize()`, and the wait for the stream's `close`) happens inside
the `end` callback, which the single-threaded event loop can run only in a
later task, after the body has returned.  The trace below lists the events
of one run in the order this forces. -/

/-- The observable events of one `createArchive` run. -/
inductive AEvent where
  | handlersRegistered
  | lsChildSpawned
  | bodyReturn
  | stdoutEnd
  | dispatchLoopDone
  | allSettled
  | finalizeCall
  | streamClose
deriving Repr, DecidableEq

/-- The event order of a `createArchive` run under the event-loop model:
the synchronous body runs to completion (resolving the returned promise at
`bodyReturn`) before the `end` event can be delivered; finalization and the
stream close follow inside the `end` callback. -/
def createArchiveTrace : List AEvent :=
  [AEvent.handlersRegistered, AEvent.lsChildSpawned, AEvent.bodyReturn,
   AEvent.stdoutEnd, AEvent.dispatchLoopDone, AEvent.allSettled,
   AEvent.finalizeCall, AEvent.streamClose]

/-! ## Helper lemmas -/

theorem zipLsLoop_false (ls : List String) : ∀ acc : List String,
    zipLsLoop false acc ls = acc ++ ls.map jsTrim := by
  induction ls with
  | nil => intro acc; simp [zipLsLoop]
  | cons l rest ih =>
      intro acc
      simp [zipLsLoop, ih, List.append_assoc]

theorem zipLsLoop_true (ls : List String) :
    zipLsLoop true [] ls = (ls.drop 1).map jsTrim := by
  cases ls with
  | nil => rfl
  | cons l rest => simpa [zipLsLoop] using zipLsLoop_false rest []

theorem zipAllPaths_eq (raw : String) :
    zipAllPaths raw = ((splitLines raw).drop 1).map jsTrim := by
  simp [zipAllPaths, zipLsLoop_true]

theorem uniqueLines_aux_nodup (ls : List String) : ∀ acc : List String, acc.Nodup →
    (ls.foldl (fun acc l => if l ∈ acc then acc else acc ++ [l]) acc).Nodup := by
  induction ls with
  | nil => intro acc h; simpa using h
  | cons l rest ih =>
      intro acc h
      by_cases hm : l ∈ acc
      · simpa [hm] using ih acc h
      · have hdisj : acc.Disjoint [l] := by
          intro a ha hb
          rcases List.mem_singleton.mp hb with rfl
          exact hm ha
        have h2 : (acc ++ [l]).Nodup :=
          List.nodup_append.mpr ⟨h, List.nodup_singleton l, hdisj⟩
        simpa [hm] using ih (acc ++ [l]) h2

theorem uniqueLines_aux_mono (ls : List String) : ∀ acc : List String, ∀ x ∈ acc,
    x ∈ ls.foldl (fun acc l => if l ∈ acc then acc else acc ++ [l]) acc := by
  induction ls with
  | nil => intro acc x hx; simpa using hx
  | cons l rest ih =>
      intro acc x hx
      by_cases hm : l ∈ acc
      · simpa [hm] using ih acc x hx
      · simpa [hm] using ih (acc ++ [l]) x (by simp [hx])

theorem uniqueLines_aux_mem (ls : List String) : ∀ acc : List String, ∀ x ∈ ls,
    x ∈ ls.foldl (fun acc l => if l ∈ acc then acc else acc ++ [l]) acc := by
  induction ls with
  | nil => intro acc x hx; simp at hx
  | cons l rest ih =>
      intro acc x hx
      rcases List.mem_cons.mp hx with rfl | hx
      · by_cases hm : x ∈ acc
        · simpa [hm] using uniqueLines_aux_mono rest acc x hm
        · simpa [hm] using uniqueLines_aux_mono rest (acc ++ [x]) x (by simp)
      · by_cases hm : l ∈ acc
        · simpa [hm] using ih acc x hx
        · simpa [hm] using ih (acc ++ [l]) x hx

theorem uniqueLines_nodup (ls : List String) : (uniqueLines ls).Nodup :=
  uniqueLines_aux_nodup ls [] List.nodup_nil

theorem uniqueLines_mem (ls : List String) {x : String} (hx : x ∈ ls) :
    x ∈ uniqueLines ls :=
  uniqueLines_aux_mem ls [] x hx

theorem isPrefixOf_append_self (pre suf : List Char) :
    pre.isPrefixOf (pre ++ suf) = true := by
  induction pre with
  | nil => cases suf <;> rfl
  | cons c cs ih => simp [List.isPrefixOf, ih]

theorem removeFirstOcc_append (pre : List Char) (suf : List Char) :
    removeFirstOcc pre (pre ++ suf) = suf := by
  have hp : pre.isPrefixOf (pre ++ suf) = true := isPrefixOf_append_self pre suf
  cases h : pre ++ suf with
  | nil =>
      have : suf = [] := by
        rcases List.append_eq_nil.mp h with ⟨_, h2⟩
        exact h2
      simp [removeFirstOcc, this]
  | cons c cs =>
      rw [← h]
      rw [h, removeFirstOcc, if_pos (h ▸ hp), ← h, List.drop_left]

theorem relativeOf_append (root rest : String) :
    relativeOf root (root ++ "/" ++ rest) = rest := by
  have hdata : (root ++ "/" ++ rest).data = root.data ++ ('/' :: rest.data) := by
    simp [String.data_append]
  rw [relativeOf, hdata, removeFirstOcc_append]
  rfl

theorem atomsMatchAt_no_dot (cs : List Char) (h : ∀ c ∈ cs, c ≠ '.') : ∀ l : List Char,
    atomsMatchAt (cs.map (fun c => if c = '.' then RAtom.dot else RAtom.lit c)) l =
      cs.isPrefixOf l := by
  induction cs with
  | nil => intro l; simp [atomsMatchAt, List.isPrefixOf]
  | cons c cs ih =>
      intro l
      have hc : c ≠ '.' := h c (by simp)
      have hrest : ∀ c' ∈ cs, c' ≠ '.' := fun c' hc' => h c' (by simp [hc'])
      cases l with
      | nil => simp [hc, atomsMatchAt, List.isPrefixOf]
      | cons x xs =>
          simp only [List.map, if_neg hc, atomsMatchAt, List.isPrefixOf, ih hrest]
          by_cases hx : x = c
          · subst hx; simp
          · simp [hx]
            intro h'
            exact absurd h'.symm hx

theorem dispatchGuard_iff (C k d : Nat) :
    dispatchGuard C k d = true ↔ d ≤ k ∧ (C ≤ k → 1 ≤ d) := by
  simp [dispatchGuard, Decidable.imp_iff_not_or]

theorem pumpCounts_le (C : Nat) (ds : List Nat) : ∀ k, k ≤ C →
    validSched C k ds = true → ∀ x ∈ pumpCounts C k ds, x ≤ C := by
  induction ds with
  | nil =>
      intro k hk _ x hx
      simp [pumpCounts] at hx
      exact hx ▸ hk
  | cons d ds ih =>
      intro k hk hv x hx
      have hv' : dispatchGuard C k d = true ∧ validSched C (k - d + 1) ds = true := by
        simpa [validSched] using hv
      have hg := (dispatchGuard_iff C k d).mp hv'.1
      have hnext : k - d + 1 ≤ C := by
        by_cases hCk : C ≤ k
        · have hd1 : 1 ≤ d := hg.2 hCk
          have hk1 : 1 ≤ k := le_trans hd1 hg.1
          have : k - d + 1 ≤ k := by omega
          exact le_trans this hk
        · omega
      simp only [pumpCounts, List.mem_cons] at hx
      rcases hx with rfl | hx
      · exact hk
      rcases hx with rfl | hx
      · exact le_trans (Nat.sub_le k d) hk
      · exact ih (k - d + 1) hnext hv'.2 x hx

theorem checkCounts_lt (C : Nat) (ds : List Nat) : ∀ k,
    ∀ x ∈ checkCounts C k ds, x < k + ds.length := by
  induction ds with
  | nil => intro k x hx; simp [checkCounts] at hx
  | cons d ds ih =>
      intro k x hx
      simp only [checkCounts, List.mem_cons] at hx
      rcases hx with rfl | hx
      · simp
      · have := ih (k - d + 1) x hx
        simp only [List.length_cons]
        omega

theorem preDispatchCounts_serial (ds : List Nat) : ∀ k, k ≤ 1 →
    validSched 1 k ds = true → ∀ x ∈ preDispatchCounts 1 k ds, x = 0 := by
  induction ds with
  | nil => intro k _ _ x hx; simp [preDispatchCounts] at hx
  | cons d ds ih =>
      intro k hk hv x hx
      have hv' : dispatchGuard 1 k d = true ∧ validSched 1 (k - d + 1) ds = true := by
        simpa [validSched] using hv
      have hg := (dispatchGuard_iff 1 k d).mp hv'.1
      have hkd : k - d = 0 := by
        interval_cases k
        · omega
        · have := hg.2 (le_refl 1)
          omega
      simp only [preDispatchCounts, List.mem_cons] at hx
      rcases hx with rfl | hx
      · exact hkd
      · exact ih (k - d + 1) (by omega) hv'.2 x hx

theorem noSuspensionRun_of_le (C : Nat) : ∀ n k, k + n ≤ C → noSuspensionRun C k n = true := by
  intro n
  induction n with
  | zero => intro k _; rfl
  | succ n ih =>
      intro k hk
      have h1 : k < C := by omega
      have h2 : noSuspensionRun C (k + 1) n = true := ih (k + 1) (by omega)
      simp [noSuspensionRun, h1, h2]

theorem addToArchiveRun_counter (fs : String → FSStat) (rootSeq : Nat → String)
    (p : String) (n : Nat) :
    (addToArchiveRun fs rootSeq n p).2.2 = if fs p = FSStat.absent then n else n + 1 := by
  cases h : fs p <;> simp [addToArchiveRun, h]

theorem pumpAddAll_counter (fs : String → FSStat) (rootSeq : Nat → String) :
    ∀ (paths : List String) (n : Nat),
    (pumpAddAll fs rootSeq paths n).2.2 =
      n + paths.countP (fun p => !(decide (fs p = FSStat.absent))) := by
  intro paths
  induction paths with
  | nil => intro n; simp [pumpAddAll]
  | cons p ps ih =>
      intro n
      simp only [pumpAddAll]
      rw [ih, addToArchiveRun_counter]
      by_cases h : fs p = FSStat.absent
      · simp [h, List.countP_cons]
      · simp only [h, if_neg h, List.countP_cons, decide_eq_true_eq]
        simp [h]
        omega

/-! ## The claims -/

/-- Claim C1: for every concurrency ceiling C ≥ 1 and every admissible
settlement schedule of the Bounded Archive Pump, (a) the size of the
in-flight set (`runningPromises`) never exceeds C at any moment of the
dispatch loop (and the drain phase afterwards only shrinks it); (b) when
C ≥ |pathList| the ceiling check observes a size strictly below C at every
iteration, so no suspension on the ceiling ever occurs — in particular the
settlement-free run itself proceeds unsuspended; (c) when C = 1 every
dispatch happens with zero operations in flight, i.e. the add operations
are fully serialized. -/
theorem pump_inflight_bounded (C : Nat) (ds : List Nat)
    (hC : 1 ≤ C) (hv : validSched C 0 ds = true) :
    (∀ x ∈ pumpCounts C 0 ds, x ≤ C) ∧
    (ds.length ≤ C → ∀ x ∈ checkCounts C 0 ds, x < C) ∧
    (∀ n : Nat, n ≤ C → noSuspensionRun C 0 n = true) ∧
    (C = 1 → ∀ x ∈ preDispatchCounts C 0 ds, x = 0) := by
  refine ⟨pumpCounts_le C ds 0 (Nat.zero_le C) hv, ?_, ?_, ?_⟩
  · intro hlen x hx
    exact lt_of_lt_of_le (by simpa using checkCounts_lt C ds 0 x hx) hlen
  · intro n hn
    exact noSuspensionRun_of_le C n 0 (by omega)
  · intro h1
    subst h1
    exact preDispatchCounts_serial ds 0 (by omega) hv

/-- Witness for C1 at ceiling 2 and the admissible schedule [0, 0, 1, 1]. -/
theorem pump_inflight_bounded_witness :
    ((1 : Nat) ≤ 2 ∧ validSched 2 0 [0, 0, 1, 1] = true) ∧
    (∀ x ∈ pumpCounts 2 0 [0, 0, 1, 1], x ≤ 2) :=
  ⟨⟨by decide, by decide⟩,
   (pump_inflight_bounded 2 [0, 0, 1, 1] (by decide) (by decide)).1⟩

/-- Claim C2 (the claim states the intended behaviour; the code diverges):
the promise `createArchive` returns should resolve only after every path is
dispatched and settled, the archive finalized and the output flushed — but
the function's synchronous, await-free body resolves that promise as soon
as it finishes registering handlers, strictly before the `pnpm ls` stdout
`end` event can even be delivered; the `await archivePromise` sits inside
the `end` callback where it cannot gate the caller.  In the modelled event
order of any run the resolution event precedes finalization, the stream
close, and the dispatch loop itself — exhibiting the bug. -/
theorem createArchive_resolves_early :
    createArchiveTrace.indexOf AEvent.bodyReturn <
      createArchiveTrace.indexOf AEvent.finalizeCall ∧
    createArchiveTrace.indexOf AEvent.bodyReturn <
      createArchiveTrace.indexOf AEvent.streamClose ∧
    createArchiveTrace.indexOf AEvent.bodyReturn <
      createArchiveTrace.indexOf AEvent.dispatchLoopDone := by
  decide

/-- Claim C3 (amended): the zip variant's `runPnpmCommand` — backing the
project-existence check and the workspace-root query — fails exactly when
the command exits non-zero or writes to its error stream and otherwise
returns the trimmed stdout; but the 7zip variant's `runPnpmCommand` checks
only the exit code (stderr output alone never fails it), and the zip
variant's dependency-path listing spawns `pnpm ls` without any exit-code or
stderr check at all, so it never fails. -/
theorem resolver_error_contract (r : ProcResult) :
    (getRootPathZip r = runPnpmCommandZip r) ∧
    ((runPnpmCommandZip r).isOk = true ↔ r.exitCode = 0 ∧ r.stderr = "") ∧
    (r.exitCode = 0 → r.stderr = "" → runPnpmCommandZip r = .ok (jsTrim r.stdout)) ∧
    ((runPnpmCommand7z r).isOk = true ↔ r.exitCode = 0) ∧
    (r.exitCode = 0 → runPnpmCommand7z r = .ok (jsTrim r.stdout)) ∧
    (lsChildZip r).isOk = true := by
  refine ⟨rfl, ?_, ?_, ?_, ?_, rfl⟩
  · rw [runPnpmCommandZip]
    split
    · rename_i h
      simp only [Except.isOk]
      constructor
      · intro hF; cases hF
      · intro hcon
        rcases h with h | h
        · exact absurd hcon.1 h
        · exact absurd hcon.2 h
    · rename_i h
      push_neg at h
      simp [Except.isOk, Except.toBool, h.1, h.2]
  · intro h1 h2
    simp [runPnpmCommandZip, h1, h2]
  · rw [runPnpmCommand7z]
    split
    · rename_i h
      simp only [Except.isOk]
      constructor
      · intro hF; cases hF
      · intro hcon; exact absurd hcon h
    · rename_i h
      push_neg at h
      simp [Except.isOk, Except.toBool, h]
  · intro h1
    simp [runPnpmCommand7z, h1]

/-- Witness for C3 on a successful root query with untrimmed stdout. -/
theorem resolver_error_contract_witness :
    ((0 : Int) = 0 ∧ ("" : String) = "") ∧
    runPnpmCommandZip ⟨0, " /w ", ""⟩ = .ok (jsTrim " /w ") :=
  ⟨⟨rfl, rfl⟩, (resolver_error_contract ⟨0, " /w ", ""⟩).2.2.1 rfl rfl⟩

/-- Counterexample for C3 as stated: the zip variant's dependency listing
succeeds even when `pnpm ls` exits 1 with stderr output, and the 7zip
variant's `runPnpmCommand` succeeds when the command exits 0 but writes to
stderr — both cases where the claim demands a SubprocessError. -/
theorem resolver_error_contract_cx :
    lsChildZip ⟨1, "", "boom"⟩ = .ok [] ∧
    runPnpmCommand7z ⟨0, "out", "warning"⟩ = .ok "out" := by
  constructor
  · rfl
  · rfl

/-- Claim C4 (amended): the 7zip variant's `uniqueLines` set keeps each raw
output line exactly once however often it occurs; the canonical zip
variant's `allPaths`, however, does not deduplicate — each line after the
first contributes one (trimmed) element, repeats included, so a path's
multiplicity in the resulting list equals its multiplicity among the
trimmed non-header lines. -/
theorem dedup_by_set_insertion :
    (∀ ls : List String, ∀ l ∈ ls, (uniqueLines ls).count l = 1) ∧
    (∀ ls : List String, ∀ l : String,
      (zipLsLoop true [] ls).count l = ((ls.drop 1).map jsTrim).count l) := by
  constructor
  · intro ls l hl
    exact List.count_eq_one_of_mem (uniqueLines_nodup ls) (uniqueLines_mem ls hl)
  · intro ls l
    rw [zipLsLoop_true]

/-- Witness for C4: a line occurring twice appears once in `uniqueLines`. -/
theorem dedup_by_set_insertion_witness :
    "/a" ∈ ["/a", "/a", "/b"] ∧ (uniqueLines ["/a", "/a", "/b"]).count "/a" = 1 :=
  ⟨by decide, dedup_by_set_insertion.1 ["/a", "/a", "/b"] "/a" (by decide)⟩

/-- Counterexample for C4 as stated: the zip variant's DependencyPathList
keeps a duplicated path twice. -/
theorem dedup_by_set_insertion_cx :
    (zipAllPaths "header\n/a\n/a").count "/a" = 2 := by decide

/-- Claim C5 (amended): parsing the dependency-listing output discards the
first (header/self) line and turns every subsequent line — empty or
whitespace-only lines included — into its trimmed form, one list element
per line; whitespace-only lines therefore contribute empty strings rather
than nothing. -/
theorem zip_parse_lines (raw : String) :
    zipAllPaths raw = ((splitLines raw).drop 1).map jsTrim ∧
    (zipAllPaths raw).length = (splitLines raw).length - 1 := by
  refine ⟨zipAllPaths_eq raw, ?_⟩
  rw [zipAllPaths_eq raw]
  simp

/-- Counterexample for C5 as stated: an empty line between paths survives
as an empty-string element instead of contributing nothing. -/
theorem zip_parse_lines_cx :
    zipAllPaths "header\n/a\n\n/b" = ["/a", "", "/b"] ∧
    zipAllPaths "header\n/a\n\n/b" ≠ ["/a", "/b"] ∧
    "" ∈ zipAllPaths "header\n/a\n\n/b" := by decide

/-- Claim C6: `addToArchive` on a path missing from disk produces no
entries and only the skip notice (and queries no root); on a regular file
it produces exactly the one entry `(absolutePath, relativeOf absolutePath)`;
on a directory it produces exactly one entry per immediate `readdir` child
— child path joined to the directory, name joined to the directory's
relative name — and descends into no subdirectory. -/
theorem mapToEntries_cases (fs : String → FSStat) (rootSeq : Nat → String)
    (n : Nat) (p : String) :
    (fs p = FSStat.absent →
      addToArchiveRun fs rootSeq n p =
        ([], ["Path \"" ++ p ++ "\" does not exist. Skipping..."], n)) ∧
    (fs p = FSStat.file →
      addToArchiveRun fs rootSeq n p =
        ([⟨p, relativeOf (rootSeq n) p⟩], [], n + 1)) ∧
    (∀ cs, fs p = FSStat.dir cs →
      (addToArchiveRun fs rootSeq n p).1 =
        cs.map (fun item => ⟨pathJoin p item, pathJoin (relativeOf (rootSeq n) p) item⟩) ∧
      (addToArchiveRun fs rootSeq n p).1.length = cs.length ∧
      (addToArchiveRun fs rootSeq n p).2.1 = []) := by
  refine ⟨?_, ?_, ?_⟩
  · intro h; simp [addToArchiveRun, h]
  · intro h; simp [addToArchiveRun, h]
  · intro cs h; simp [addToArchiveRun, h]

/-- Witness for C6 on a one-file filesystem. -/
theorem mapToEntries_cases_witness :
    (fun s => if s = "/w/p" then FSStat.file else FSStat.absent) "/w/p" = FSStat.file ∧
    addToArchiveRun (fun s => if s = "/w/p" then FSStat.file else FSStat.absent)
        (fun _ => "/w") 0 "/w/p" =
      ([⟨"/w/p", relativeOf "/w" "/w/p"⟩], [], 0 + 1) :=
  ⟨by decide,
   (mapToEntries_cases (fun s => if s = "/w/p" then FSStat.file else FSStat.absent)
     (fun _ => "/w") 0 "/w/p").2.1 (by decide)⟩

/-- Claim C7: the `.catch` wrapper at the pump boundary turns every failed
add operation into a resolved promise carrying a logged message, so
`Promise.all` over the wrapped operations always resolves — whatever each
path's add operation does — and every path of the list is processed with
its own outcome; a failure affects only its own entry's log. -/
theorem pump_never_rejects (op : String → Except String Unit) (paths : List String) :
    (∀ p, (wrappedAdd op p).1 = .ok ()) ∧
    pumpOutcome op paths = .ok (paths.map (fun p => (p, (wrappedAdd op p).2))) := by
  have hok : ∀ p, (wrappedAdd op p).1 = .ok () := by
    intro p
    cases h : op p with
    | ok u => cases u; simp [wrappedAdd, h]
    | error e => simp [wrappedAdd, h]
  refine ⟨hok, ?_⟩
  induction paths with
  | nil => rfl
  | cons p ps ih => simp [pumpOutcome, hok p, ih]

/-- Claim C8 (amended): `projectExists(name)` tests the unescaped pattern
`^name@` in multiline mode, so for a project name free of
regular-expression metacharacters it returns true exactly when some line of
the list output begins with the literal token `name@`; when the name
contains metacharacters they are interpreted as regex syntax, not
literally. -/
theorem projectExists_literal (projectName output : String)
    (h : noRegexMeta projectName = true) :
    projectExistsCheck projectName output =
      (splitLines output).any (fun line => lineHasLitToken (projectName ++ "@") line) := by
  have hnd : ∀ c ∈ (projectName ++ "@").data, c ≠ '.' := by
    intro c hc
    rw [String.data_append] at hc
    rcases List.mem_append.mp hc with hc | hc
    · have hall := List.all_eq_true.mp h c hc
      have hnm : c ∉ regexMetaChars := of_decide_eq_true hall
      intro hdot
      subst hdot
      exact hnm (by decide)
    · intro hdot
      subst hdot
      simp [String.data] at hc
  have key : ∀ line : String,
      atomsMatchAt (regexAtoms (projectName ++ "@")) line.data =
        (projectName ++ "@").data.isPrefixOf line.data := by
    intro line
    simpa [regexAtoms] using atomsMatchAt_no_dot (projectName ++ "@").data hnd line.data
  unfold projectExistsCheck
  simp only [key]
  rfl

/-- Witness for C8 on a metacharacter-free name. -/
theorem projectExists_literal_witness :
    noRegexMeta "my-pkg" = true ∧
    projectExistsCheck "my-pkg" "my-pkg@1.0.0 /w/my-pkg" =
      (splitLines "my-pkg@1.0.0 /w/my-pkg").any
        (fun line => lineHasLitToken ("my-pkg" ++ "@") line) :=
  ⟨by decide, projectExists_literal "my-pkg" "my-pkg@1.0.0 /w/my-pkg" (by decide)⟩

/-- Counterexample for C8 as stated: with name `a.b` the interpolated `.`
matches any character, so the check accepts the output line `axb@1.0.0`
although no line begins with the literal token `a.b@`. -/
theorem projectExists_literal_cx :
    projectExistsCheck "a.b" "axb@1.0.0" = true ∧
    (splitLines "axb@1.0.0").any (fun line => lineHasLitToken ("a.b" ++ "@") line) = false := by
  decide

/-- Claim C9: for an absolute path that is a strict descendant of the
workspace root — `root ++ "/" ++ rest` with `rest` a non-empty normalized
relative part (no leading separator, no `..` segment) — the computation
`absolutePath.replace(rootPath, '').substring(1)` strips exactly the root
prefix and the separator after it, returning `rest`; the result never
begins with a path separator and never contains a `..` traversal segment. -/
theorem relativeOf_descendant (root rest : String) (h0 : rest ≠ "")
    (h1 : leadsWithSep rest = false) (h2 : hasDotDotSegment rest = false) :
    relativeOf root (root ++ "/" ++ rest) = rest ∧
    leadsWithSep (relativeOf root (root ++ "/" ++ rest)) = false ∧
    hasDotDotSegment (relativeOf root (root ++ "/" ++ rest)) = false := by
  refine ⟨relativeOf_append root rest, ?_, ?_⟩ <;> rw [relativeOf_append] <;> assumption

/-- Witness for C9 at root `/w` and descendant `/w/a/b`. -/
theorem relativeOf_descendant_witness :
    ("a/b" ≠ "" ∧ leadsWithSep "a/b" = false ∧ hasDotDotSegment "a/b" = false) ∧
    relativeOf "/w" ("/w" ++ "/" ++ "a/b") = "a/b" :=
  ⟨⟨by decide, by decide, by decide⟩,
   (relativeOf_descendant "/w" "a/b" (by decide) (by decide) (by decide)).1⟩

/-- Claim C10 (implicit): each `addToArchive` invocation on an existing
path spawns its own `pnpm root` subprocess — the counter of root queries
advances by exactly one per existing path and by none for a missing path,
so a run over a path list performs one root query per existing path; no
root value is computed once and reused, and the entry names of each path
are built from the root string returned for that path's own query (the
value of the query sequence at that path's own counter). -/
theorem root_query_per_invocation (fs : String → FSStat) (rootSeq : Nat → String) :
    (∀ (paths : List String) (n : Nat),
      (pumpAddAll fs rootSeq paths n).2.2 =
        n + paths.countP (fun p => !(decide (fs p = FSStat.absent)))) ∧
    (∀ (p : String) (n : Nat), fs p ≠ FSStat.absent →
      (addToArchiveRun fs rootSeq n p).2.2 = n + 1) ∧
    (∀ (p : String) (n : Nat), fs p = FSStat.absent →
      (addToArchiveRun fs rootSeq n p).2.2 = n) ∧
    (∀ (p : String) (n : Nat), fs p = FSStat.file →
      (addToArchiveRun fs rootSeq n p).1 = [⟨p, relativeOf (rootSeq n) p⟩]) := by
  refine ⟨pumpAddAll_counter fs rootSeq, ?_, ?_, ?_⟩
  · intro p n h
    rw [addToArchiveRun_counter, if_neg h]
  · intro p n h
    rw [addToArchiveRun_counter, if_pos h]
  · intro p n h
    simp [addToArchiveRun, h]

/-- Witness for C10: over a list with one existing file, one missing path
and one existing directory, exactly two root queries happen, and the
file's entry is named from the root returned by its own (first) query. -/
theorem root_query_per_invocation_witness :
    ((fun s => if s = "/w/a" then FSStat.file else
        if s = "/w/d" then FSStat.dir ["c"] else FSStat.absent) "/w/a" = FSStat.file) ∧
    (addToArchiveRun
        (fun s => if s = "/w/a" then FSStat.file else
          if s = "/w/d" then FSStat.dir ["c"] else FSStat.absent)
        (fun i => if i = 0 then "/w" else "/other") 0 "/w/a").1 =
      [⟨"/w/a", relativeOf ((fun i : Nat => if i = 0 then "/w" else "/other") 0) "/w/a"⟩] ∧
    (pumpAddAll
        (fun s => if s = "/w/a" then FSStat.file else
          if s = "/w/d" then FSStat.dir ["c"] else FSStat.absent)
        (fun i => if i = 0 then "/w" else "/other") ["/w/a", "/gone", "/w/d"] 0).2.2 =
      0 + (["/w/a", "/gone", "/w/d"].countP
        (fun p => !(decide ((fun s => if s = "/w/a" then FSStat.file else
          if s = "/w/d" then FSStat.dir ["c"] else FSStat.absent) p = FSStat.absent)))) :=
  ⟨by decide,
   (root_query_per_invocation
      (fun s => if s = "/w/a" then FSStat.file else
        if s = "/w/d" then FSStat.dir ["c"] else FSStat.absent)
      (fun i => if i = 0 then "/w" else "/other")).2.2.2 "/w/a" 0 (by decide),
   (root_query_per_invocation
      (fun s => if s = "/w/a" then FSStat.file else
        if s = "/w/d" then FSStat.dir ["c"] else FSStat.absent)
      (fun i => if i = 0 then "/w" else "/other")).1 ["/w/a", "/gone", "/w/d"] 0⟩

end Pnpack
